import Mathlib

/-!
Verification of the pair-trading notebook `03_pair_trading_johansen.ipynb`
(repository `alrzJml/econ`) against its natural-language specification.

The notebook's pipeline is embedded shallowly:
* the series generator (notebook cells 1 and 3) with the numpy global RNG
  modelled as explicit state threading, the randomness source itself being a
  parameter (the spec treats RNG mechanics as external);
* spread / mean / unbiased standard deviation / z-score (cell 7), with the
  IEEE NaN produced by a zero-variance division modelled as `Option.none`;
* the stateful position loop (cell 9);
* pnl, cumulative pnl (cell 11), with the NaN introduced by
  `shift(1)` / `diff()` modelled as `Option.none`, `cumsum()` skipping NaN
  (pandas default `skipna=True`) and `fillna(0)` replacing NaN by `0`.

Float arithmetic is idealised as exact arithmetic over a linear ordered
field (instantiated at `ℝ` where `sqrt` is needed, at `ℚ` for evaluation).
-/

namespace PairTrading

/-! ### Series generator (notebook cells 1 and 3)

```
np.random.seed(42)
...
n = 500
eps1 = np.random.normal(scale=1.0, size=n)
S1 = 100 + np.cumsum(eps1)
beta_true = 0.8
eps2 = np.random.normal(scale=2.0, size=n)
S2 = beta_true * S1 + eps2
```
The numpy global RNG is explicit state of type `R`; `draw` is the external
standard-normal source and `seedFn` is `np.random.seed`, which replaces the
global state by a function of the seed alone. -/

/-- Draw `k` values from the randomness source, threading the RNG state. -/
def drawN {R α : Type} (draw : R → α × R) : ℕ → R → List α × R
  | 0, s => ([], s)
  | k + 1, s =>
    let p := draw s
    let q := drawN draw k p.2
    (p.1 :: q.1, q.2)

/-- `np.random.normal(scale=scale, size=n)`: numpy raises `ValueError` on a
negative size (modelled as `none`), and returns `n` scaled draws otherwise
(for `n = 0` this is an empty array, not an error). -/
def normalDraws {R α : Type} [Mul α] (draw : R → α × R) (scale : α) (n : ℤ)
    (s : R) : Option (List α × R) :=
  if n < 0 then none
  else
    let q := drawN draw n.toNat s
    some (q.1.map (fun x => scale * x), q.2)

/-- `np.cumsum`: running partial sums, from an accumulator. -/
def cumsumFrom {α : Type} [Add α] : α → List α → List α
  | _, [] => []
  | acc, x :: xs => (acc + x) :: cumsumFrom (acc + x) xs

/-- Cells 1 and 3: seed the RNG, draw `eps1`, form the random walk
`S1 = offset + cumsum(eps1)`, draw `eps2`, form `S2 = beta * S1 + eps2`.
The incoming RNG state `s0` is what `np.random.seed` overwrites. -/
def genSeries {R α : Type} [LinearOrderedField α] (seedFn : ℕ → R)
    (draw : R → α × R) (seed : ℕ) (n : ℤ) (offset beta scale1 scale2 : α)
    (s0 : R) : Option ((List α × List α) × R) :=
  let s := seedFn seed
  match normalDraws draw scale1 n s with
  | none => none
  | some e1 =>
    let S1 := (cumsumFrom 0 e1.1).map (fun x => offset + x)
    match normalDraws draw scale2 n e1.2 with
    | none => none
    | some e2 =>
      some ((S1, List.zipWith (fun a e => beta * a + e) S1 e2.1), e2.2)

/-! ### Spread, mean, standard deviation, z-score (cell 7)

```
df['spread'] = evec[0] * df['S1'] + evec[1] * df['S2']
df['zscore'] = (df['spread'] - df['spread'].mean()) / df['spread'].std()
``` -/

/-- `evec[0] * S1 + evec[1] * S2`, elementwise. -/
def spread {α : Type} [LinearOrderedField α] (w0 w1 : α) (s1 s2 : List α) :
    List α :=
  List.zipWith (fun a b => w0 * a + w1 * b) s1 s2

/-- pandas `.mean()`: sum divided by length. -/
noncomputable def mean (xs : List ℝ) : ℝ := xs.sum / xs.length

/-- pandas `.var()` with the default `ddof = 1`: unbiased sample variance
with denominator `N - 1`. -/
noncomputable def var (xs : List ℝ) : ℝ :=
  (xs.map (fun x => (x - mean xs) ^ 2)).sum / ((xs.length : ℝ) - 1)

/-- pandas `.std()` with the default `ddof = 1`. -/
noncomputable def std (xs : List ℝ) : ℝ := Real.sqrt (var xs)

/-- `(spread - mean) / std`, the ordinary-value reading of cell 7 (meaningful
when `std xs ≠ 0`). -/
noncomputable def zscore (xs : List ℝ) : List ℝ :=
  xs.map (fun x => (x - mean xs) / std xs)

/-- IEEE-faithful reading of cell 7.  When `std xs = 0` every numerator
`x - mean xs` is also `0` (a zero-variance series is constant; for a
length-one series pandas already reports the standard deviation itself as
NaN), so the float division is `0.0/0.0 = NaN`, modelled as `none`.
Otherwise the division produces the ordinary value. -/
noncomputable def zscoreNaN (xs : List ℝ) : List (Option ℝ) :=
  xs.map (fun x => if std xs = 0 then none else some ((x - mean xs) / std xs))

/-! ### Signal generator (cell 9)

```
entry_z, exit_z = 1.0, 0.0
df['long_spread']  = (df['zscore'] < -entry_z).astype(int)
df['short_spread'] = (df['zscore'] >  entry_z).astype(int)
pos = 0
for i in range(len(df)):
    if pos == 0:
        if df['long_spread'].iloc[i]: pos = +1
        elif df['short_spread'].iloc[i]: pos = -1
    elif pos == +1 and abs(df['zscore'].iloc[i]) < exit_z:
        pos = 0
    elif pos == -1 and abs(df['zscore'].iloc[i]) < exit_z:
        pos = 0
    df.at[df.index[i], 'position'] = pos
``` -/

/-- One iteration of the cell 9 loop body, with the `long_spread` /
`short_spread` comparisons inlined. -/
def positionStep {α : Type} [LinearOrderedField α] (entry_z exit_z : α)
    (pos : ℤ) (z : α) : ℤ :=
  if pos = 0 then
    if z < -entry_z then 1
    else if z > entry_z then -1
    else 0
  else if pos = 1 ∧ |z| < exit_z then 0
  else if pos = -1 ∧ |z| < exit_z then 0
  else pos

/-- The cell 9 loop from a given carried state: records the state after
processing each step's z-score. -/
def positionsFrom {α : Type} [LinearOrderedField α] (entry_z exit_z : α) :
    ℤ → List α → List ℤ
  | _, [] => []
  | pos, z :: zs =>
    let p := positionStep entry_z exit_z pos z
    p :: positionsFrom entry_z exit_z p zs

/-- `df['position']`: the cell 9 loop started from `pos = 0` (FLAT). -/
def positions {α : Type} [LinearOrderedField α] (entry_z exit_z : α)
    (zs : List α) : List ℤ :=
  positionsFrom entry_z exit_z 0 zs

/-- The specification's transition rule (§4.4), written from the spec's
words for refinement comparison with `positionStep`: from FLAT enter on the
threshold comparisons; from a held position exit to FLAT when
`|z| < exit_threshold`, else stay. -/
def specTransition {α : Type} [LinearOrderedField α] (entry_z exit_z : α)
    (pos : ℤ) (z : α) : ℤ :=
  if pos = 0 then
    if z < -entry_z then 1
    else if z > entry_z then -1
    else 0
  else if |z| < exit_z then 0
  else pos

/-! ### P&L simulator (cell 11)

```
df['spread_diff'] = df['spread'].diff()
df['pnl'] = df['position'].shift(1) * df['spread_diff']
df['cum_pnl'] = df['pnl'].cumsum().fillna(0)
```
`shift(1)` and `diff()` each put NaN at index 0 (modelled `none`); the
product of the two columns is NaN wherever an operand is NaN.  `zipWith`'s
truncation to the shorter list reproduces the alignment to the dataframe's
`n` rows. -/

/-- `df['pnl'] = df['position'].shift(1) * df['spread'].diff()`. -/
def pnl {α : Type} [LinearOrderedField α] (posL : List ℤ) (spreadL : List α) :
    List (Option α) :=
  match spreadL with
  | [] => []
  | _ :: _ =>
    List.zipWith
      (fun po so =>
        match po, so with
        | some p, some s => some ((p : α) * s)
        | _, _ => none)
      (none :: posL.map some)
      (none :: (List.zipWith (fun a b => a - b) spreadL.tail spreadL).map some)

/-- pandas `.cumsum()` with the default `skipna=True`: NaN entries stay NaN
in the output and are skipped by the running sum. -/
def cumsumSkipna {α : Type} [Add α] : α → List (Option α) → List (Option α)
  | _, [] => []
  | acc, none :: l => none :: cumsumSkipna acc l
  | acc, some x :: l => some (acc + x) :: cumsumSkipna (acc + x) l

/-- pandas `.fillna(0)`. -/
def fillna0 {α : Type} [Zero α] (l : List (Option α)) : List α :=
  l.map (fun o => o.getD 0)

/-- `df['cum_pnl'] = df['pnl'].cumsum().fillna(0)`. -/
def cum_pnl {α : Type} [LinearOrderedField α] (posL : List ℤ)
    (spreadL : List α) : List α :=
  fillna0 (cumsumSkipna 0 (pnl posL spreadL))

/-! ### Helper lemmas: the position loop -/

/-- On the reachable states, the loop body agrees with the specification's
transition rule (the code splits the exit test over `pos = 1` and
`pos = -1`; the spec states it once). -/
theorem positionStep_eq_specTransition {α : Type} [LinearOrderedField α]
    (entry_z exit_z : α) (pos : ℤ) (z : α)
    (h : pos = 0 ∨ pos = 1 ∨ pos = -1) :
    positionStep entry_z exit_z pos z = specTransition entry_z exit_z pos z := by
  rcases h with h | h | h <;> subst h <;>
    norm_num [positionStep, specTransition]

/-- The loop body keeps the state in `{0, 1, -1}`. -/
theorem positionStep_mem {α : Type} [LinearOrderedField α]
    (entry_z exit_z : α) (pos : ℤ) (z : α)
    (h : pos = 0 ∨ pos = 1 ∨ pos = -1) :
    positionStep entry_z exit_z pos z = 0 ∨
      positionStep entry_z exit_z pos z = 1 ∨
      positionStep entry_z exit_z pos z = -1 := by
  unfold positionStep
  split_ifs <;> tauto

/-- The loop, started in a reachable state, is the left-fold scan of the
specification's transition rule. -/
theorem positionsFrom_eq_scanl {α : Type} [LinearOrderedField α]
    (entry_z exit_z : α) :
    ∀ (zs : List α) (p : ℤ), p = 0 ∨ p = 1 ∨ p = -1 →
      p :: positionsFrom entry_z exit_z p zs =
        List.scanl (specTransition entry_z exit_z) p zs
  | [], p, _ => by simp [positionsFrom, List.scanl_nil]
  | z :: zs, p, h => by
    rw [List.scanl_cons, ← positionStep_eq_specTransition entry_z exit_z p z h]
    simpa [positionsFrom] using
      positionsFrom_eq_scanl entry_z exit_z zs
        (positionStep entry_z exit_z p z) (positionStep_mem entry_z exit_z p z h)

/-- Claim C2: the position series is the left-fold scan, started in FLAT, of
the specification's transition rule; `position[t]` is the state after
processing step `t`'s z-score. -/
theorem c2_positions_eq_spec_scan {α : Type} [LinearOrderedField α]
    (entry_z exit_z : α) (zs : List α) :
    positions entry_z exit_z zs =
      (List.scanl (specTransition entry_z exit_z) 0 zs).tail := by
  rw [← positionsFrom_eq_scanl entry_z exit_z zs 0 (Or.inl rfl)]
  rfl

/-- With `exit_z = 0` the exit test `|z| < 0` can never hold, so the loop
body fixes every non-FLAT state. -/
theorem positionStep_exit_zero {α : Type} [LinearOrderedField α]
    (entry_z : α) (pos : ℤ) (z : α) (h : pos ≠ 0) :
    positionStep entry_z 0 pos z = pos := by
  have hz : ¬|z| < (0 : α) := not_lt.mpr (abs_nonneg z)
  simp [positionStep, h, hz]

/-- With `exit_z = 0`, the loop started in a non-FLAT state repeats that
state forever. -/
theorem positionsFrom_exit_zero_const {α : Type} [LinearOrderedField α]
    (entry_z : α) :
    ∀ (zs : List α) (p : ℤ), p ≠ 0 →
      positionsFrom entry_z 0 p zs = List.replicate zs.length p
  | [], _, _ => rfl
  | z :: zs, p, h => by
    simp only [positionsFrom, positionStep_exit_zero entry_z p z h,
      List.length_cons, List.replicate_succ]
    exact congrArg _ (positionsFrom_exit_zero_const entry_z zs p h)

/-- With `exit_z = 0`, a non-FLAT value at index `i` persists at every later
index, from any start state. -/
theorem positionsFrom_persist {α : Type} [LinearOrderedField α]
    (entry_z : α) (zs : List α) :
    ∀ (p0 : ℤ) (i j : ℕ) (p : ℤ), i ≤ j → j < zs.length →
      (positionsFrom entry_z 0 p0 zs)[i]? = some p → p ≠ 0 →
      (positionsFrom entry_z 0 p0 zs)[j]? = some p := by
  induction zs with
  | nil => intro p0 i j p _ hj _ _; simp at hj
  | cons z zs ih =>
    intro p0 i j p hij hj hi hp
    simp only [positionsFrom] at hi ⊢
    cases i with
    | zero =>
      simp only [List.getElem?_cons_zero, Option.some.injEq] at hi
      cases j with
      | zero => simp [hi]
      | succ j =>
        simp only [List.getElem?_cons_succ]
        rw [hi, positionsFrom_exit_zero_const entry_z zs p hp]
        have hj' : j < zs.length := by
          simpa [Nat.succ_lt_succ_iff] using hj
        simp [List.getElem?_replicate, hj']
    | succ i =>
      cases j with
      | zero => omega
      | succ j =>
        simp only [List.getElem?_cons_succ] at hi ⊢
        exact ih _ i j p (by omega) (by simpa [Nat.succ_lt_succ_iff] using hj)
          hi hp

/-- Claim C3: with the default `exit_z = 0` the exit branch never fires
(`|z| < 0` is unsatisfiable), so any non-FLAT position, once reached, is
kept unchanged at every later step. -/
theorem c3_exit_unreachable {α : Type} [LinearOrderedField α] (entry_z : α) :
    (∀ (p : ℤ) (z : α), p ≠ 0 → positionStep entry_z 0 p z = p) ∧
    (∀ (zs : List α) (i j : ℕ) (p : ℤ), i ≤ j → j < zs.length →
      (positions entry_z 0 zs)[i]? = some p → p ≠ 0 →
      (positions entry_z 0 zs)[j]? = some p) :=
  ⟨fun p z h => positionStep_exit_zero entry_z p z h,
   fun zs i j p hij hj hi hp =>
    positionsFrom_persist entry_z zs 0 i j p hij hj hi hp⟩

/-- Witness for C3 at a concrete input: `entry_z = 1`, z-scores
`[2, 0, 0]`; the short entry at step 0 persists to step 2. -/
theorem c3_exit_unreachable_witness :
    ((-1 : ℤ) ≠ 0) ∧ (0 : ℕ) ≤ 2 ∧ 2 < ([2, 0, 0] : List ℚ).length ∧
    (positions (1 : ℚ) 0 [2, 0, 0])[0]? = some (-1) ∧
    positionStep (1 : ℚ) 0 (-1) (3 : ℚ) = -1 ∧
    (positions (1 : ℚ) 0 [2, 0, 0])[2]? = some (-1) := by
  have h0 : (positions (1 : ℚ) 0 [2, 0, 0])[0]? = some (-1) := by
    norm_num [positions, positionsFrom, positionStep, abs_lt]
  exact ⟨by norm_num, by norm_num, by norm_num, h0,
    (c3_exit_unreachable (1 : ℚ)).1 (-1) 3 (by norm_num),
    (c3_exit_unreachable (1 : ℚ)).2 [2, 0, 0] 0 2 (-1) (by norm_num)
      (by norm_num) h0 (by norm_num)⟩

/-- The loop body never moves directly between the two held positions: from
`+1` it can only go to `0` or stay, and symmetrically from `-1`. -/
theorem positionStep_no_flip {α : Type} [LinearOrderedField α]
    (entry_z exit_z : α) (p : ℤ) (z : α) :
    ¬(p = 1 ∧ positionStep entry_z exit_z p z = -1) ∧
    ¬(p = -1 ∧ positionStep entry_z exit_z p z = 1) := by
  unfold positionStep
  split_ifs <;>
    refine ⟨fun hc => ?_, fun hc => ?_⟩ <;> obtain ⟨hp, hv⟩ := hc <;>
    first
    | omega
    | exact hv

/-- Every carried state is related to the whole emitted suffix by the
no-direct-flip relation. -/
theorem positionsFrom_chain {α : Type} [LinearOrderedField α]
    (entry_z exit_z : α) :
    ∀ (zs : List α) (p : ℤ),
      List.Chain (fun p q : ℤ => ¬(p = 1 ∧ q = -1) ∧ ¬(p = -1 ∧ q = 1)) p
        (positionsFrom entry_z exit_z p zs)
  | [], _ => List.Chain.nil
  | z :: zs, p =>
    List.Chain.cons (positionStep_no_flip entry_z exit_z p z)
      (positionsFrom_chain entry_z exit_z zs
        (positionStep entry_z exit_z p z))

/-- Claim C4: consecutive positions never flip directly between `+1` and
`-1`; a sign change always passes through an intervening state. -/
theorem c4_no_direct_flip {α : Type} [LinearOrderedField α]
    (entry_z exit_z : α) (zs : List α) :
    List.Chain' (fun p q : ℤ => ¬(p = 1 ∧ q = -1) ∧ ¬(p = -1 ∧ q = 1))
      (positions entry_z exit_z zs) :=
  List.Chain'.tail
    (l := (0 : ℤ) :: positions entry_z exit_z zs)
    (positionsFrom_chain entry_z exit_z zs 0)

/-- Claim C5: on z-scores `[1.5, 0.5, -1.5, -0.2, 0.1]` with
`entry_z = 1.0`, `exit_z = 0.0`, the loop enters short at step 0 and stays
short throughout. -/
theorem c5_concrete_positions :
    positions (1 : ℚ) 0 [1.5, 0.5, -1.5, -0.2, 0.1] =
      [-1, -1, -1, -1, -1] := by
  norm_num [positions, positionsFrom, positionStep, abs_lt]

/-! ### Helper lemmas: pnl and cumulative pnl -/

/-- Structural form of `pnl` on a nonempty spread series: NaN at index 0,
then the products of lagged position and spread difference. -/
theorem pnl_cons {α : Type} [LinearOrderedField α] (posL : List ℤ) (s : α)
    (ss : List α) :
    pnl posL (s :: ss) =
      none :: (List.zipWith (fun (p : ℤ) d => (p : α) * d) posL
        (List.zipWith (fun a b => a - b) ss (s :: ss))).map some := by
  simp [pnl, List.zipWith_map, ← List.map_zipWith]

/-- Running-sum characterisation of skip-NaN cumsum plus fill on an
all-ordinary list. -/
theorem cumsumSkipna_fillna0_getElem {α : Type} [LinearOrderedField α] :
    ∀ (l : List α) (acc : α) (t : ℕ), t < l.length →
      (fillna0 (cumsumSkipna acc (l.map some)))[t]? =
        some (acc + (l.take (t + 1)).sum) := by
  intro l
  induction l with
  | nil => intro acc t ht; simp at ht
  | cons x l ih =>
    intro acc t ht
    cases t with
    | zero => simp [cumsumSkipna, fillna0]
    | succ t =>
      have h := ih (acc + x) t (by simpa [Nat.succ_lt_succ_iff] using ht)
      simp only [List.map_cons, cumsumSkipna, fillna0, List.getElem?_cons_succ,
        List.take_succ_cons, List.sum_cons]
      rw [show List.map (fun o => Option.getD o 0)
          (cumsumSkipna (acc + x) (List.map some l)) =
        fillna0 (cumsumSkipna (acc + x) (List.map some l)) from rfl, h]
      congr 1
      ring

/-- Claim C1 (counterexample part): at index 0 the code's pnl is NaN
(`none`), not the ordinary value 0 — `shift(1)`/`diff()` put NaN there and
the multiplication propagates it. -/
theorem c1_pnl_counterexample :
    (pnl [(1 : ℤ), 1] [(5 : ℚ), 7])[0]? = some none ∧
    some (none : Option ℚ) ≠ some (some (0 : ℚ)) := by
  constructor
  · rfl
  · simp

/-- Claim C1 (amended): for equal-length series with `N ≥ 1`,
`pnl[t] = position[t-1] * (spread[t] - spread[t-1])` holds for every
`1 ≤ t < N`, while `pnl[0]` is NaN (`none`), not 0; it only enters the
cumulative sum as 0, via `fillna(0)`. -/
theorem c1_pnl_amended {α : Type} [LinearOrderedField α] (posL : List ℤ)
    (spreadL : List α) (hlen : posL.length = spreadL.length)
    (hN : 1 ≤ spreadL.length) :
    (pnl posL spreadL)[0]? = some none ∧
    ∀ t, 1 ≤ t → t < spreadL.length →
      (pnl posL spreadL)[t]? =
        some (some (((posL.getD (t - 1) 0 : ℤ) : α) *
          (spreadL.getD t 0 - spreadL.getD (t - 1) 0))) := by
  obtain ⟨s, ss, rfl⟩ : ∃ s ss, spreadL = s :: ss := by
    cases spreadL with
    | nil => simp at hN
    | cons a l => exact ⟨a, l, rfl⟩
  rw [pnl_cons]
  refine ⟨by simp, ?_⟩
  intro t ht1 htn
  obtain ⟨u, rfl⟩ : ∃ u, t = u + 1 := ⟨t - 1, by omega⟩
  have hu : u < ss.length := by
    simpa [Nat.succ_lt_succ_iff] using htn
  have hup : u < posL.length := by
    rw [hlen]; simp; omega
  have hus : u < (s :: ss).length := by simp; omega
  simp only [List.getElem?_cons_succ, List.getElem?_map,
    List.getElem?_zipWith, Nat.add_sub_cancel]
  rw [List.getElem?_eq_getElem hup, List.getElem?_eq_getElem hu,
    List.getElem?_eq_getElem hus]
  have e1 : posL.getD u 0 = posL[u] := by
    simp [List.getD_eq_getElem?_getD, List.getElem?_eq_getElem hup]
  have e2 : (s :: ss).getD (u + 1) 0 = ss[u] := by
    simp [List.getD_eq_getElem?_getD, List.getElem?_eq_getElem hu]
  have e3 : (s :: ss).getD u 0 = (s :: ss)[u] := by
    simp [List.getD_eq_getElem?_getD, List.getElem?_eq_getElem hus]
  rw [e1, e2, e3]
  rfl

/-- Witness for C1 (amended) at `posL = [2, 3, 1]`,
`spreadL = [1, 4, 6]`: `pnl = [NaN, 2*(4-1), 3*(6-4)]`. -/
theorem c1_pnl_amended_witness :
    ([(2 : ℤ), 3, 1] : List ℤ).length = ([(1 : ℚ), 4, 6] : List ℚ).length ∧
    1 ≤ ([(1 : ℚ), 4, 6] : List ℚ).length ∧
    (pnl [(2 : ℤ), 3, 1] [(1 : ℚ), 4, 6])[0]? = some none ∧
    (pnl [(2 : ℤ), 3, 1] [(1 : ℚ), 4, 6])[1]? =
      some (some (((([(2 : ℤ), 3, 1] : List ℤ).getD 0 0 : ℤ) : ℚ) *
        (([(1 : ℚ), 4, 6] : List ℚ).getD 1 0 -
          ([(1 : ℚ), 4, 6] : List ℚ).getD 0 0))) := by
  have h := c1_pnl_amended [(2 : ℤ), 3, 1] [(1 : ℚ), 4, 6] (by norm_num)
    (by norm_num)
  exact ⟨by norm_num, by norm_num, h.1, h.2 1 (by norm_num) (by norm_num)⟩

/-- Claim C10: `cum_pnl[t]` is the running sum of the pnl values through
index `t`, a NaN entering the sum as 0 (the spec's `pnl[0] = 0`
convention, realised by `fillna(0)`); in particular the last entry is the
sum of the whole pnl series. -/
theorem c10_cum_pnl_running_sum {α : Type} [LinearOrderedField α]
    (posL : List ℤ) (spreadL : List α)
    (hlen : posL.length = spreadL.length) :
    (∀ t, t < spreadL.length →
      (cum_pnl posL spreadL)[t]? =
        some (((fillna0 (pnl posL spreadL)).take (t + 1)).sum)) ∧
    (1 ≤ spreadL.length →
      (cum_pnl posL spreadL)[spreadL.length - 1]? =
        some ((fillna0 (pnl posL spreadL)).sum)) := by
  cases spreadL with
  | nil => exact ⟨fun t ht => by simp at ht, fun h => by simp at h⟩
  | cons s ss =>
    have hlen2 : posL.length = ss.length + 1 := by simpa using hlen
    set vals := List.zipWith (fun (p : ℤ) d => (p : α) * d) posL
      (List.zipWith (fun a b => a - b) ss (s :: ss)) with hvals
    have hvlen : vals.length = ss.length := by
      simp only [hvals, List.length_zipWith, hlen2, List.length_cons]
      omega
    have hp : pnl posL (s :: ss) = none :: vals.map some := pnl_cons posL s ss
    have hms : ∀ l : List α, fillna0 (l.map some) = l := by
      intro l
      induction l with
      | nil => rfl
      | cons x l ih => simpa [fillna0] using ih
    have hfill : fillna0 (pnl posL (s :: ss)) = 0 :: vals := by
      rw [hp]
      show (none : Option α).getD 0 :: fillna0 (vals.map some) = 0 :: vals
      rw [hms]
      rfl
    have hcum : cum_pnl posL (s :: ss) =
        0 :: fillna0 (cumsumSkipna 0 (vals.map some)) := by
      rw [cum_pnl, hp]
      simp [cumsumSkipna, fillna0]
    have hrun : ∀ t, t < (s :: ss).length →
        (cum_pnl posL (s :: ss))[t]? =
          some (((fillna0 (pnl posL (s :: ss))).take (t + 1)).sum) := by
      intro t ht
      rw [hcum, hfill]
      cases t with
      | zero => simp
      | succ u =>
        have hu : u < vals.length := by
          rw [hvlen]
          simpa [Nat.succ_lt_succ_iff] using ht
        simp only [List.getElem?_cons_succ, List.take_succ_cons,
          List.sum_cons]
        rw [cumsumSkipna_fillna0_getElem vals 0 u hu]
    refine ⟨hrun, fun _ => ?_⟩
    have hflen : (fillna0 (pnl posL (s :: ss))).length = ss.length + 1 := by
      rw [hfill]
      simp [hvlen]
    have hgoal := hrun ss.length (by simp)
    rw [show (s :: ss).length - 1 = ss.length by simp]
    rw [hgoal]
    congr 1
    rw [show ss.length + 1 = (fillna0 (pnl posL (s :: ss))).length from
      hflen.symm, List.take_length]

/-- Witness for C10 at `posL = [2, 3, 1]`, `spreadL = [1, 4, 6]`. -/
theorem c10_cum_pnl_running_sum_witness :
    ([(2 : ℤ), 3, 1] : List ℤ).length = ([(1 : ℚ), 4, 6] : List ℚ).length ∧
    (cum_pnl [(2 : ℤ), 3, 1] [(1 : ℚ), 4, 6])[2]? =
      some (((fillna0 (pnl [(2 : ℤ), 3, 1] [(1 : ℚ), 4, 6])).take 3).sum) ∧
    (cum_pnl [(2 : ℤ), 3, 1] [(1 : ℚ), 4, 6])[([(1 : ℚ), 4, 6] :
        List ℚ).length - 1]? =
      some ((fillna0 (pnl [(2 : ℤ), 3, 1] [(1 : ℚ), 4, 6])).sum) := by
  have h := c10_cum_pnl_running_sum [(2 : ℤ), 3, 1] [(1 : ℚ), 4, 6]
    (by norm_num)
  exact ⟨by norm_num, h.1 2 (by norm_num), h.2 (by norm_num)⟩

/-! ### The series generator claims -/

/-- Claim C8 (counterexample part): at `N = 0` the generator returns a pair
of (empty) series with no error — there is no non-positive-length
validation; numpy only rejects negative sizes. -/
theorem c8_counterexample :
    genSeries (fun s : ℕ => s) (fun s : ℕ => ((1 : ℚ), s + 1)) 42 0 100
        (8 / 10) 1 2 0 =
      some (([], []), 42) ∧
    (some ((([] : List ℚ), ([] : List ℚ)), (42 : ℕ)) ≠ none) := by
  constructor
  · rfl
  · simp

/-- Claim C8 (amended): generation fails (numpy `ValueError`, modelled
`none`) exactly for `N < 0`; at `N = 0` it returns two empty series and
the freshly seeded RNG state, with no validation error. -/
theorem c8_amended {R α : Type} [LinearOrderedField α] (seedFn : ℕ → R)
    (draw : R → α × R) (seed : ℕ) (n : ℤ) (offset beta scale1 scale2 : α)
    (s0 : R) :
    (n < 0 →
      genSeries seedFn draw seed n offset beta scale1 scale2 s0 = none) ∧
    (n = 0 →
      genSeries seedFn draw seed n offset beta scale1 scale2 s0 =
        some (([], []), seedFn seed)) := by
  constructor
  · intro hn
    simp [genSeries, normalDraws, hn]
  · rintro rfl
    simp [genSeries, normalDraws, drawN, cumsumFrom]

/-- Witness for C8 (amended) at `N = -1` and `N = 0`. -/
theorem c8_amended_witness :
    genSeries (fun s : ℕ => s) (fun s : ℕ => ((1 : ℚ), s + 1)) 7 (-1) 100
        (8 / 10) 1 2 5 = none ∧
    genSeries (fun s : ℕ => s) (fun s : ℕ => ((1 : ℚ), s + 1)) 7 0 100
        (8 / 10) 1 2 5 = some (([], []), 7) :=
  ⟨(c8_amended _ _ 7 (-1) 100 (8 / 10) 1 2 5).1 (by norm_num),
   (c8_amended _ _ 7 0 100 (8 / 10) 1 2 5).2 rfl⟩

/-- Claim C9: the generator is a pure function of the seed and the
parameters — `np.random.seed` replaces the ambient RNG state, so two runs
with identical parameters agree regardless of the prior RNG state. -/
theorem c9_determinism {R α : Type} [LinearOrderedField α] (seedFn : ℕ → R)
    (draw : R → α × R) (seed : ℕ) (n : ℤ)
    (offset beta scale1 scale2 : α) (s0 s0' : R) (hn : 0 < n) :
    genSeries seedFn draw seed n offset beta scale1 scale2 s0 =
      genSeries seedFn draw seed n offset beta scale1 scale2 s0' := rfl

/-- Witness for C9 at `N = 3` with a concrete counter-based draw
function and distinct prior RNG states. -/
theorem c9_determinism_witness :
    (0 : ℤ) < 3 ∧
    genSeries (fun s : ℕ => s) (fun s : ℕ => ((s : ℚ), s + 1)) 42 3 100
        (8 / 10) 1 2 0 =
      genSeries (fun s : ℕ => s) (fun s : ℕ => ((s : ℚ), s + 1)) 42 3 100
        (8 / 10) 1 2 999 :=
  ⟨by norm_num,
   c9_determinism (fun s : ℕ => s) (fun s : ℕ => ((s : ℚ), s + 1)) 42 3 100
     (8 / 10) 1 2 0 999 (by norm_num)⟩

/-! ### Helper lemmas: mean, variance and z-score -/

/-- Sum of a translated-and-rescaled list. -/
theorem sum_map_sub_div (xs : List ℝ) (m s : ℝ) :
    (xs.map (fun x => (x - m) / s)).sum = (xs.sum - xs.length * m) / s := by
  induction xs with
  | nil => simp
  | cons x xs ih =>
    simp only [List.map_cons, List.sum_cons, List.length_cons, ih]
    push_cast
    ring

/-- Sum of squared translated-and-rescaled values. -/
theorem sum_map_sub_sq_div (xs : List ℝ) (m s : ℝ) :
    (xs.map (fun x => ((x - m) / s) ^ 2)).sum =
      (xs.map (fun x => (x - m) ^ 2)).sum / s ^ 2 := by
  induction xs with
  | nil => simp
  | cons x xs ih =>
    simp only [List.map_cons, List.sum_cons, ih]
    ring

/-- The z-score series has exact sample mean 0 on a nonempty series. -/
theorem mean_zscore (xs : List ℝ) (hl : (xs.length : ℝ) ≠ 0) :
    mean (zscore xs) = 0 := by
  have hmul : (xs.length : ℝ) * mean xs = xs.sum := by
    rw [mean]
    field_simp
  have hsum : xs.sum - (xs.length : ℝ) * mean xs = 0 := by
    rw [hmul, sub_self]
  have hz : (zscore xs).sum = 0 := by
    rw [zscore, sum_map_sub_div, hsum, zero_div]
  rw [mean, hz, zero_div]

/-- The z-score series has exact unbiased sample variance 1 when the
series has at least two points and nonzero standard deviation. -/
theorem var_zscore (xs : List ℝ) (h2 : 2 ≤ xs.length) (hs : std xs ≠ 0) :
    var (zscore xs) = 1 := by
  have hl : (xs.length : ℝ) ≠ 0 := by
    have h : 0 < xs.length := by omega
    exact_mod_cast h.ne'
  have hvarpos : 0 < var xs := Real.sqrt_ne_zero'.mp hs
  have hsq : std xs ^ 2 = var xs := Real.sq_sqrt hvarpos.le
  have h0 : mean (zscore xs) = 0 := mean_zscore xs hl
  have hL1 : (xs.length : ℝ) - 1 ≠ 0 := by
    have h : (2 : ℝ) ≤ (xs.length : ℝ) := by exact_mod_cast h2
    exact ne_of_gt (by linarith)
  have hQ : (xs.map (fun x => (x - mean xs) ^ 2)).sum ≠ 0 := by
    intro h
    exact hvarpos.ne' (by simp [var, h])
  unfold var
  simp only [h0, sub_zero, List.length_map]
  rw [zscore, List.map_map]
  have hcomp : ((fun y : ℝ => y ^ 2) ∘ fun x => (x - mean xs) / std xs) =
      fun x => ((x - mean xs) / std xs) ^ 2 := rfl
  rw [hcomp, sum_map_sub_sq_div, hsq,
    show var xs =
      (xs.map (fun x => (x - mean xs) ^ 2)).sum / ((xs.length : ℝ) - 1)
      from rfl]
  field_simp

/-- Claim C6: on a series of length at least 2 with nonzero (unbiased)
standard deviation, the z-score column consists of ordinary values whose
exact sample mean is 0 and whose exact unbiased sample variance and
standard deviation are 1. -/
theorem c6_zscore_normalized (xs : List ℝ) (h2 : 2 ≤ xs.length)
    (hs : std xs ≠ 0) :
    zscoreNaN xs = (zscore xs).map some ∧
    mean (zscore xs) = 0 ∧ var (zscore xs) = 1 ∧ std (zscore xs) = 1 := by
  have hl : (xs.length : ℝ) ≠ 0 := by
    have h : 0 < xs.length := by omega
    exact_mod_cast h.ne'
  refine ⟨?_, mean_zscore xs hl, var_zscore xs h2 hs, ?_⟩
  · simp [zscoreNaN, zscore, List.map_map, hs]
  · rw [std, var_zscore xs h2 hs, Real.sqrt_one]

/-- Witness for C6 at the concrete series `[0, 2]` (mean 1, unbiased
variance 2, standard deviation `√2 ≠ 0`). -/
theorem c6_zscore_normalized_witness :
    2 ≤ ([0, 2] : List ℝ).length ∧ std ([0, 2] : List ℝ) ≠ 0 ∧
    (zscoreNaN ([0, 2] : List ℝ) = (zscore ([0, 2] : List ℝ)).map some ∧
      mean (zscore ([0, 2] : List ℝ)) = 0 ∧
      var (zscore ([0, 2] : List ℝ)) = 1 ∧
      std (zscore ([0, 2] : List ℝ)) = 1) := by
  have hvar : var ([0, 2] : List ℝ) = 2 := by
    norm_num [var, mean]
  have hs : std ([0, 2] : List ℝ) ≠ 0 := by
    rw [std, hvar]
    exact Real.sqrt_ne_zero'.mpr (by norm_num)
  exact ⟨by norm_num, hs, c6_zscore_normalized [0, 2] (by norm_num) hs⟩

/-- Claim C7: with weighting vector `[1, -1]` and two identical price
series (length at least 2, where pandas' standard deviation is defined),
the spread is identically zero, its standard deviation is exactly zero,
and the z-score computation propagates NaN (`none`) at every index rather
than producing ordinary numeric values. -/
theorem c7_degenerate_spread (S : List ℝ) (h2 : 2 ≤ S.length) :
    spread 1 (-1) S S = List.replicate S.length 0 ∧
    std (spread 1 (-1) S S) = 0 ∧
    zscoreNaN (spread 1 (-1) S S) = List.replicate S.length none := by
  have hsp : spread 1 (-1) S S = List.replicate S.length 0 := by
    rw [spread, List.zipWith_same]
    have hf : (fun a : ℝ => 1 * a + -1 * a) = fun _ => (0 : ℝ) := by
      funext a
      ring
    rw [hf, List.map_const']
  have hmean : mean (List.replicate S.length (0 : ℝ)) = 0 := by
    simp [mean, List.sum_replicate]
  have hvar : var (List.replicate S.length (0 : ℝ)) = 0 := by
    simp [var, hmean, List.map_replicate, List.sum_replicate]
  have hstd : std (List.replicate S.length (0 : ℝ)) = 0 := by
    rw [std, hvar, Real.sqrt_zero]
  refine ⟨hsp, by rw [hsp, hstd], ?_⟩
  rw [hsp]
  simp [zscoreNaN, hstd, List.map_const']

/-- Witness for C7 at the concrete identical series `[1, 2]`. -/
theorem c7_degenerate_spread_witness :
    2 ≤ ([1, 2] : List ℝ).length ∧
    (spread 1 (-1) ([1, 2] : List ℝ) ([1, 2] : List ℝ) =
        List.replicate ([1, 2] : List ℝ).length 0 ∧
      std (spread 1 (-1) ([1, 2] : List ℝ) ([1, 2] : List ℝ)) = 0 ∧
      zscoreNaN (spread 1 (-1) ([1, 2] : List ℝ) ([1, 2] : List ℝ)) =
        List.replicate ([1, 2] : List ℝ).length none) :=
  ⟨by norm_num, c7_degenerate_spread [1, 2] (by norm_num)⟩

end PairTrading
